import Mathlib

/-!
Shallow embedding of the PSX CD-ROM drive controller
(`src/src/io/cdrom_drive.cpp`, class `io::CdromDrive`).

Machine integers are modelled as `Nat` with an explicit `% 2^32` where the
source relies on `u32` wrap-around (the sector-delay pre-decrement, the
read-sector increment, the LBA subtraction).  Contract checks
(`Expects`/`Ensures` from gsl-lite, which terminate the program on
violation) are modelled by returning `Option`: `none` means the contract
fired and the call does not return.  The state-mutating member functions
become explicit state-passing functions on the `CdromDrive` structure.
-/

namespace Pctation

/-- `CdromTrack::DataType`: kind of a sector returned by the disc backend. -/
inductive DataType
  | Data
  | Audio
  | Invalid
deriving DecidableEq

/-- Modelled from the spec: `CdromPosition` (minutes, seconds, frames) —
the position type lives in a header that is not among the sources.
"a CD-ROM logical address ... (minutes, seconds, frames)". -/
structure CdromPosition where
  minutes : Nat
  seconds : Nat
  frames : Nat
deriving DecidableEq

/-- The `u32` modulus: the source stores LBAs / counters in `u32`. -/
def U32 : Nat := 4294967296

/-- Modelled from the spec: `LBA = (minutes*60 + seconds)*75 + frames − 150`
(computed in `u32`, hence the wrap-around on the subtraction). -/
def CdromPosition.to_lba (p : CdromPosition) : Nat :=
  ((p.minutes * 60 + p.seconds) * 75 + p.frames + (U32 - 150)) % U32

/-- Modelled from the spec: inverse conversion, total on LBAs
("Conversions are total and lossless in the 0..74:59:74 range"). -/
def CdromPosition.from_lba (lba : Nat) : CdromPosition :=
  let x := (lba + 150) % U32
  ⟨x / 4500, x / 75 % 60, x % 75⟩

/-- Modelled from the spec: `util::bcd_to_dec` ("BCD — each nibble holds one
decimal digit"). -/
def util.bcd_to_dec (b : Nat) : Nat := b / 16 * 10 + b % 16

/-- Modelled from the spec: `util::dec_to_bcd`. -/
def util.dec_to_bcd (n : Nat) : Nat := n / 10 * 16 + n % 10

/-- Modelled from the spec: the disc image backend, a capability with
operations `read`, `track_count`, `track_start`, `size`, `is_empty`
(spec section 2 and section 9: "Model as a small interface";
reads are pure with respect to controller state). -/
structure CdromDisk where
  read : CdromPosition → List Nat × DataType
  is_empty : Bool
  get_track_count : Nat
  get_track_start : Nat → CdromPosition
  size : CdromPosition

/-- Modelled from the spec: the bit fields of the offset-0 status register
(spec section 3, "StatusRegister"). -/
structure StatusRegister where
  index : Nat
  adpcm_fifo_empty : Bool
  param_fifo_empty : Bool
  param_fifo_write_ready : Bool
  response_fifo_not_empty : Bool
  data_fifo_not_empty : Bool
  transmit_busy : Bool

/-- The raw byte view of the status register: bits 0-1 index, 2 ADPCM-empty,
3 param-empty, 4 param-write-ready, 5 response-not-empty, 6 data-not-empty,
7 transmit-busy. -/
def StatusRegister.byte (r : StatusRegister) : Nat :=
  r.index % 4 + 4 * r.adpcm_fifo_empty.toNat + 8 * r.param_fifo_empty.toNat +
    16 * r.param_fifo_write_ready.toNat + 32 * r.response_fifo_not_empty.toNat +
    64 * r.data_fifo_not_empty.toNat + 128 * r.transmit_busy.toNat

/-- Modelled from the spec: the stat-code bit fields (spec section 3,
"StatCode"): `{error, spindle_motor_on, seek_error, id_error, shell_open,
reading, seeking, playing}`, bit 0 upward. -/
structure StatCode where
  error : Bool
  spindle_motor_on : Bool
  seek_error : Bool
  id_error : Bool
  shell_open : Bool
  reading : Bool
  seeking : Bool
  playing : Bool

/-- The raw byte view of the stat code. -/
def StatCode.byte (c : StatCode) : Nat :=
  c.error.toNat + 2 * c.spindle_motor_on.toNat + 4 * c.seek_error.toNat +
    8 * c.id_error.toNat + 16 * c.shell_open.toNat + 32 * c.reading.toNat +
    64 * c.seeking.toNat + 128 * c.playing.toNat

/-- The drive read states (`CdromReadState`). -/
inductive CdromReadState
  | Stopped
  | Seeking
  | Reading
  | Playing
deriving DecidableEq

/-- Modelled from the spec: `StatCode::set_state` — "Exactly one of
`reading|seeking|playing` is set at a time (or none)". -/
def StatCode.set_state (c : StatCode) : CdromReadState → StatCode
  | .Stopped => { c with reading := false, seeking := false, playing := false }
  | .Seeking => { c with reading := false, seeking := true, playing := false }
  | .Reading => { c with reading := true, seeking := false, playing := false }
  | .Playing => { c with reading := false, seeking := false, playing := true }

/-- Modelled from the spec: `StatCode::reset` — "Stat reset clears all bits"
(spec section 4.5). -/
def StatCode.reset (_ : StatCode) : StatCode :=
  ⟨false, false, false, false, false, false, false, false⟩

/-- Modelled from the spec: the mode byte, with bit 5 selecting the sector
size (spec section 3, "Mode byte"). -/
structure CdromMode where
  byte : Nat

/-- Modelled from the spec: `mode.sector_size()` — bit 5 clear selects the
2048-byte (0x800) data-only size, bit 5 set the 2340-byte (0x924)
whole-sector-minus-sync size. -/
def CdromMode.sector_size (m : CdromMode) : Nat :=
  if m.byte &&& 0x20 ≠ 0 then 0x924 else 0x800

/-- Modelled from the spec: `mode.reset()` sets `mode.byte = 0`
(spec section 4.5). -/
def CdromMode.reset (_ : CdromMode) : CdromMode := ⟨0⟩

/-- Modelled from the spec: `MAX_FIFO_SIZE` — "FIFOs — all bounded at
16 bytes" (the constant lives in the missing header). -/
def MAX_FIFO_SIZE : Nat := 16

/-- Modelled from the spec: `READ_SECTOR_DELAY_STEPS`, "a fixed integer —
the number of `step()` calls between sector deliveries".  The value lives
in the missing header; any fixed positive value is conforming. -/
def READ_SECTOR_DELAY_STEPS : Nat := 1150

/-- Modelled from the spec: `CdromResponseType` values (spec section 3:
`FirstInt3=3`). -/
def FirstInt3 : Nat := 3

/-- Modelled from the spec: `SecondInt2=2`. -/
def SecondInt2 : Nat := 2

/-- Modelled from the spec: `SecondInt1=1`. -/
def SecondInt1 : Nat := 1

/-- Modelled from the spec: `ErrorInt5=5`. -/
def ErrorInt5 : Nat := 5

/-- The controller state: the member variables of `io::CdromDrive`. -/
structure CdromDrive where
  m_reg_status : StatusRegister
  m_stat_code : StatCode
  m_mode : CdromMode
  m_reg_int_enable : Nat
  m_param_fifo : List Nat
  m_resp_fifo : List Nat
  m_irq_fifo : List Nat
  m_seek_sector : Nat
  m_read_sector : Nat
  m_steps_until_read_sect : Nat
  m_read_buf : List Nat
  m_data_buf : List Nat
  m_data_buffer_index : Nat
  m_muted : Bool
  m_disk : CdromDisk

namespace CdromDrive

/-- `CdromDrive::is_data_buf_empty`. -/
def is_data_buf_empty (s : CdromDrive) : Bool :=
  if s.m_data_buf.isEmpty then true
  else if s.m_mode.sector_size ≤ s.m_data_buffer_index then true
  else false

/-- The loop body of `CdromDrive::push_response`: one response byte is
appended if the response FIFO has room, otherwise it is logged and lost. -/
def push_byte (t : CdromDrive) (b : Nat) : CdromDrive :=
  if t.m_resp_fifo.length < MAX_FIFO_SIZE then
    { t with m_resp_fifo := t.m_resp_fifo ++ [b],
             m_reg_status := { t.m_reg_status with response_fifo_not_empty := true } }
  else t

/-- `CdromDrive::push_response`: the INT value goes to the interrupt FIFO,
then each data byte goes to the response FIFO (dropped when full). -/
def push_response (s : CdromDrive) (ty : Nat) (bytes : List Nat) : CdromDrive :=
  bytes.foldl push_byte { s with m_irq_fifo := s.m_irq_fifo ++ [ty] }

/-- `CdromDrive::push_response_stat`. -/
def push_response_stat (s : CdromDrive) (ty : Nat) : CdromDrive :=
  push_response s ty [s.m_stat_code.byte]

/-- `CdromDrive::command_error`. -/
def command_error (s : CdromDrive) : CdromDrive :=
  push_response s ErrorInt5 [0x11, 0x40]

/-- `CdromDrive::get_param`; the `Expects(!m_param_fifo.empty())` contract
is modelled by `none`. -/
def get_param (s : CdromDrive) : Option (Nat × CdromDrive) :=
  match s.m_param_fifo with
  | [] => none
  | p :: rest =>
    some (p, { s with
      m_param_fifo := rest,
      m_reg_status := { s.m_reg_status with
        param_fifo_empty := rest.isEmpty,
        param_fifo_write_ready := true } })

/-- The `switch (cmd)` body of `CdromDrive::execute_command`. -/
def dispatch (s : CdromDrive) (cmd : Nat) : Option CdromDrive :=
  if cmd = 0x01 then  -- Getstat
    some (push_response_stat s FirstInt3)
  else if cmd = 0x02 then do  -- Setloc
    let (p1, s) ← get_param s
    let (p2, s) ← get_param s
    let (p3, s) ← get_param s
    let mm := util.bcd_to_dec p1
    let ss := util.bcd_to_dec p2
    let ff := util.bcd_to_dec p3
    let pos : CdromPosition := ⟨mm, ss, ff⟩
    let s := { s with m_seek_sector := pos.to_lba }
    pure (push_response_stat s FirstInt3)
  else if cmd = 0x0D then do  -- Setfilter
    let (pf, s) ← get_param s
    let (pc, s) ← get_param s
    let file := util.bcd_to_dec pf
    let channel := util.bcd_to_dec pc
    pure (push_response s FirstInt3
      [s.m_stat_code.byte, util.dec_to_bcd file, util.dec_to_bcd channel])
  else if cmd = 0x11 ∨ cmd = 0x03 then  -- GetlocP (aliased) / Play
    if s.m_param_fifo = [] then  -- Expects(m_param_fifo.empty())
      let s := { s with m_read_sector := s.m_seek_sector,
                        m_stat_code := s.m_stat_code.set_state .Playing }
      some (push_response_stat s FirstInt3)
    else none
  else if cmd = 0x06 then  -- ReadN
    let s := { s with m_read_sector := s.m_seek_sector,
                      m_stat_code := s.m_stat_code.set_state .Reading }
    some (push_response_stat s FirstInt3)
  else if cmd = 0x07 then  -- MotorOn
    let s := { s with m_stat_code := { s.m_stat_code with spindle_motor_on := true } }
    some (push_response_stat (push_response_stat s FirstInt3) SecondInt2)
  else if cmd = 0x08 then  -- Stop
    let s := { s with m_stat_code :=
      { s.m_stat_code.set_state .Stopped with spindle_motor_on := false } }
    some (push_response_stat (push_response_stat s FirstInt3) SecondInt2)
  else if cmd = 0x09 then  -- Pause
    let s := push_response_stat s FirstInt3
    let s := { s with m_stat_code := s.m_stat_code.set_state .Stopped }
    some (push_response_stat s SecondInt2)
  else if cmd = 0x0E then do  -- Setmode
    let s := push_response_stat s FirstInt3
    let (param, s) ← get_param s
    if param &&& 0b10000 = 0 then  -- Expects(!(param & 0b10000))
      pure { s with m_mode := ⟨param⟩ }
    else none
  else if cmd = 0x0B then  -- Mute
    let s := { s with m_muted := true }
    some (push_response_stat s FirstInt3)
  else if cmd = 0x0C then  -- Demute
    let s := { s with m_muted := false }
    some (push_response_stat s FirstInt3)
  else if cmd = 0x0F then  -- Getparam
    some (push_response s FirstInt3 [s.m_stat_code.byte, 0x00, 0x00])
  else if cmd = 0x13 then  -- GetTN
    let index := util.dec_to_bcd 0x01
    let track_count := util.dec_to_bcd s.m_disk.get_track_count
    some (push_response s FirstInt3 [s.m_stat_code.byte, index, track_count])
  else if cmd = 0x14 then do  -- GetTD
    let (p, s) ← get_param s
    let track_number := util.bcd_to_dec p
    let disk_pos :=
      if track_number = 0 then s.m_disk.size
      else s.m_disk.get_track_start track_number
    let minutes := util.dec_to_bcd disk_pos.minutes
    let seconds := util.dec_to_bcd disk_pos.seconds
    pure (push_response s FirstInt3 [s.m_stat_code.byte, minutes, seconds])
  else if cmd = 0x15 then  -- SeekL
    let s := push_response_stat s FirstInt3
    let s := { s with m_read_sector := s.m_seek_sector,
                      m_stat_code := s.m_stat_code.set_state .Seeking }
    some (push_response_stat s SecondInt2)
  else if cmd = 0x19 then do  -- Test
    let (subfunction, s) ← get_param s
    if subfunction = 0x20 then
      pure (push_response s FirstInt3 [0x94, 0x09, 0x19, 0xC0])
    else
      pure (command_error s)
  else if cmd = 0x1A then  -- GetID
    let has_disk := !s.m_disk.is_empty
    if s.m_stat_code.shell_open then
      some (push_response s ErrorInt5 [0x11, 0x80])
    else if has_disk then
      some (push_response (push_response s FirstInt3 [s.m_stat_code.byte])
        SecondInt2 [0x02, 0x00, 0x20, 0x00, 0x53, 0x43, 0x45, 0x41])
    else
      some (push_response (push_response s FirstInt3 [s.m_stat_code.byte])
        ErrorInt5 [0x08, 0x40, 0x00, 0x00, 0x00, 0x00, 0x00, 0x00])
  else if cmd = 0x1B then  -- ReadS
    let s := { s with m_read_sector := s.m_seek_sector,
                      m_stat_code := s.m_stat_code.set_state .Reading }
    some (push_response_stat s FirstInt3)
  else if cmd = 0x0A then  -- Init
    let s := push_response_stat s FirstInt3
    let s := { s with m_stat_code := { s.m_stat_code.reset with spindle_motor_on := true },
                      m_mode := s.m_mode.reset }
    some (push_response_stat s SecondInt2)
  else  -- default: command error
    some (command_error s)

/-- The epilogue of `CdromDrive::execute_command`: the parameter FIFO is
drained and the fixed status bits are set. -/
def execute_epilogue (s : CdromDrive) : CdromDrive :=
  { s with m_param_fifo := [],
           m_reg_status := { s.m_reg_status with
             transmit_busy := true,
             param_fifo_empty := true,
             param_fifo_write_ready := true,
             adpcm_fifo_empty := false } }

/-- `CdromDrive::execute_command`: clear the interrupt and response FIFOs,
dispatch on the opcode, then run the epilogue. -/
def execute_command (s : CdromDrive) (cmd : Nat) : Option CdromDrive :=
  let s := { s with m_irq_fifo := [], m_resp_fifo := [] }
  (dispatch s cmd).map execute_epilogue

/-- `CdromDrive::read_byte`: serve one byte of the data buffer at the
mode-dependent offset, or warn and return 0 on an empty buffer. -/
def read_byte (s : CdromDrive) : Nat × CdromDrive :=
  if s.is_data_buf_empty then (0, s)
  else
    let data_only := s.m_mode.sector_size = 0x800
    let data_offset := if data_only then 24 else 12
    let data := s.m_data_buf.getD (data_offset + s.m_data_buffer_index) 0
    let s := { s with m_data_buffer_index := s.m_data_buffer_index + 1 }
    let s :=
      if s.is_data_buf_empty then
        { s with m_reg_status := { s.m_reg_status with data_fifo_not_empty := false } }
      else s
    (data, s)

/-- `CdromDrive::read_word`: four successive data bytes ORed together
little-endian. -/
def read_word (s : CdromDrive) : Nat × CdromDrive :=
  let (b0, s) := read_byte s
  let (b1, s) := read_byte s
  let (b2, s) := read_byte s
  let (b3, s) := read_byte s
  ((b0 <<< 0) ||| (b1 <<< 8) ||| (b2 <<< 16) ||| (b3 <<< 24), s)

/-- `CdromDrive::read_reg`: returns the value read together with the
updated state. -/
def read_reg (s : CdromDrive) (addr_rebased : Nat) : Nat × CdromDrive :=
  let reg := addr_rebased
  let reg_index := s.m_reg_status.index
  if reg = 0 then  -- Status Register
    (s.m_reg_status.byte, s)
  else if reg = 1 then  -- Response FIFO
    match s.m_resp_fifo with
    | [] => (0, s)
    | v :: rest =>
      let s := { s with m_resp_fifo := rest }
      if rest = [] then
        (v, { s with m_reg_status := { s.m_reg_status with response_fifo_not_empty := false } })
      else (v, s)
  else if reg = 2 then  -- Data FIFO
    read_byte s
  else if reg = 3 ∧ (reg_index = 0 ∨ reg_index = 2) then  -- Interrupt Enable
    (s.m_reg_int_enable, s)
  else if reg = 3 ∧ (reg_index = 1 ∨ reg_index = 3) then  -- Interrupt Flag
    let v := 0b11100000
    if s.m_irq_fifo ≠ [] then (v ||| (s.m_irq_fifo.headD 0 &&& 0b111), s)
    else (v, s)
  else  -- unknown combination: log only
    (0, s)

/-- `CdromDrive::write_reg`; `none` models the `Ensures` contract firing on
a parameter-FIFO overflow (and contract failures inside
`execute_command`). -/
def write_reg (s : CdromDrive) (addr_rebased : Nat) (val : Nat) : Option CdromDrive :=
  let reg := addr_rebased
  let reg_index := s.m_reg_status.index
  if reg = 0 then  -- Index Register
    some { s with m_reg_status := { s.m_reg_status with index := val &&& 0b11 } }
  else if reg = 1 ∧ reg_index = 0 then  -- Command Register
    execute_command s val
  else if reg = 1 ∧ (reg_index = 1 ∨ reg_index = 2 ∨ reg_index = 3) then
    some s  -- sound map / audio volume: accepted, no-op
  else if reg = 2 ∧ reg_index = 0 then  -- Parameter FIFO
    if s.m_param_fifo.length < MAX_FIFO_SIZE then  -- Ensures(size < MAX_FIFO_SIZE)
      some { s with
        m_param_fifo := s.m_param_fifo ++ [val],
        m_reg_status := { s.m_reg_status with
          param_fifo_empty := false,
          param_fifo_write_ready := s.m_param_fifo.length + 1 < MAX_FIFO_SIZE } }
    else none
  else if reg = 2 ∧ reg_index = 1 then  -- Interrupt Enable Register
    some { s with m_reg_int_enable := val }
  else if reg = 2 ∧ (reg_index = 2 ∨ reg_index = 3) then
    some s  -- audio volume: no-op
  else if reg = 3 ∧ reg_index = 0 then  -- Request Register
    if val &&& 0x80 ≠ 0 then  -- Want data
      if s.is_data_buf_empty then
        some { s with
          m_data_buf := s.m_read_buf, m_read_buf := [],
          m_data_buffer_index := 0,
          m_reg_status := { s.m_reg_status with data_fifo_not_empty := true } }
      else some s
    else  -- Clear data buffer
      some { s with
        m_data_buf := [], m_data_buffer_index := 0,
        m_reg_status := { s.m_reg_status with data_fifo_not_empty := false } }
  else if reg = 3 ∧ reg_index = 1 then  -- Interrupt Flag Register
    let s :=
      if val &&& 0x40 ≠ 0 then  -- Reset Parameter FIFO
        { s with
          m_param_fifo := [],
          m_reg_status := { s.m_reg_status with
            param_fifo_empty := true, param_fifo_write_ready := true } }
      else s
    if s.m_irq_fifo ≠ [] then some { s with m_irq_fifo := s.m_irq_fifo.tail }
    else some s
  else if reg = 3 ∧ (reg_index = 2 ∨ reg_index = 3) then
    some s  -- audio volume: no-op
  else  -- unknown combination: log only
    some s

/-- `CdromDrive::step`: returns the new state together with the number of
CDROM interrupts raised on the sink during the call. -/
def step (s : CdromDrive) : CdromDrive × Nat :=
  let s := { s with m_reg_status := { s.m_reg_status with transmit_busy := false } }
  let raised :=
    if s.m_irq_fifo ≠ [] ∧
        (s.m_irq_fifo.headD 0 &&& 0b111) &&& (s.m_reg_int_enable &&& 0b111) ≠ 0 then
      1
    else 0
  if s.m_stat_code.reading || s.m_stat_code.playing then
    let c := (s.m_steps_until_read_sect + (U32 - 1)) % U32  -- u32 pre-decrement
    if c = 0 then
      let s := { s with m_steps_until_read_sect := READ_SECTOR_DELAY_STEPS }
      let rd := s.m_disk.read (CdromPosition.from_lba s.m_read_sector)
      let sector_type := rd.2
      let s := { s with m_read_buf := rd.1,
                        m_read_sector := (s.m_read_sector + 1) % U32 }
      if sector_type = .Invalid then (s, raised)
      else
        let sector_has_data := sector_type = .Data
        let sector_has_audio := sector_type = .Audio
        if s.m_stat_code.playing ∧ sector_has_audio then
          (s, raised)  -- audio sector: sync check is log-only
        else if s.m_stat_code.reading ∧ sector_has_data then
          -- ack more data (a sync mismatch is log-only)
          (push_response s SecondInt1 [s.m_stat_code.byte], raised)
        else (s, raised)
    else ({ s with m_steps_until_read_sect := c }, raised)
  else (s, raised)

end CdromDrive

end Pctation

namespace Pctation

open CdromDrive

/-! ## Generic facts about `push_response` / `push_byte` -/

/-- Any projection unchanged by `push_byte` is unchanged by the fold. -/
theorem foldl_push_byte_proj {α : Sort _} (f : CdromDrive → α)
    (hf : ∀ t b, f (push_byte t b) = f t) :
    ∀ (l : List Nat) (t : CdromDrive), f (l.foldl push_byte t) = f t := by
  intro l
  induction l with
  | nil => intro t; rfl
  | cons b bs ih => intro t; rw [List.foldl_cons, ih, hf]

theorem push_byte_irq (t : CdromDrive) (b : Nat) :
    (push_byte t b).m_irq_fifo = t.m_irq_fifo := by
  unfold push_byte; split <;> rfl

@[simp] theorem push_response_irq (s : CdromDrive) (ty : Nat) (l : List Nat) :
    (push_response s ty l).m_irq_fifo = s.m_irq_fifo ++ [ty] :=
  foldl_push_byte_proj (fun t => t.m_irq_fifo) push_byte_irq l _

@[simp] theorem push_response_param (s : CdromDrive) (ty : Nat) (l : List Nat) :
    (push_response s ty l).m_param_fifo = s.m_param_fifo :=
  foldl_push_byte_proj (fun t => t.m_param_fifo)
    (by intro t b; unfold push_byte; split <;> rfl) l _

@[simp] theorem push_response_stat_code (s : CdromDrive) (ty : Nat) (l : List Nat) :
    (push_response s ty l).m_stat_code = s.m_stat_code :=
  foldl_push_byte_proj (fun t => t.m_stat_code)
    (by intro t b; unfold push_byte; split <;> rfl) l _

@[simp] theorem push_response_steps (s : CdromDrive) (ty : Nat) (l : List Nat) :
    (push_response s ty l).m_steps_until_read_sect = s.m_steps_until_read_sect :=
  foldl_push_byte_proj (fun t => t.m_steps_until_read_sect)
    (by intro t b; unfold push_byte; split <;> rfl) l _

@[simp] theorem push_response_disk (s : CdromDrive) (ty : Nat) (l : List Nat) :
    (push_response s ty l).m_disk = s.m_disk :=
  foldl_push_byte_proj (fun t => t.m_disk)
    (by intro t b; unfold push_byte; split <;> rfl) l _

@[simp] theorem push_response_read_sector (s : CdromDrive) (ty : Nat) (l : List Nat) :
    (push_response s ty l).m_read_sector = s.m_read_sector :=
  foldl_push_byte_proj (fun t => t.m_read_sector)
    (by intro t b; unfold push_byte; split <;> rfl) l _

@[simp] theorem push_response_read_buf (s : CdromDrive) (ty : Nat) (l : List Nat) :
    (push_response s ty l).m_read_buf = s.m_read_buf :=
  foldl_push_byte_proj (fun t => t.m_read_buf)
    (by intro t b; unfold push_byte; split <;> rfl) l _

@[simp] theorem push_response_data_buf (s : CdromDrive) (ty : Nat) (l : List Nat) :
    (push_response s ty l).m_data_buf = s.m_data_buf :=
  foldl_push_byte_proj (fun t => t.m_data_buf)
    (by intro t b; unfold push_byte; split <;> rfl) l _

@[simp] theorem push_response_mode (s : CdromDrive) (ty : Nat) (l : List Nat) :
    (push_response s ty l).m_mode = s.m_mode :=
  foldl_push_byte_proj (fun t => t.m_mode)
    (by intro t b; unfold push_byte; split <;> rfl) l _

@[simp] theorem push_response_status_param_empty (s : CdromDrive) (ty : Nat) (l : List Nat) :
    (push_response s ty l).m_reg_status.param_fifo_empty =
      s.m_reg_status.param_fifo_empty :=
  foldl_push_byte_proj (fun t => t.m_reg_status.param_fifo_empty)
    (by intro t b; unfold push_byte; split <;> rfl) l _

@[simp] theorem push_response_status_param_ready (s : CdromDrive) (ty : Nat) (l : List Nat) :
    (push_response s ty l).m_reg_status.param_fifo_write_ready =
      s.m_reg_status.param_fifo_write_ready :=
  foldl_push_byte_proj (fun t => t.m_reg_status.param_fifo_write_ready)
    (by intro t b; unfold push_byte; split <;> rfl) l _

@[simp] theorem push_response_status_transmit (s : CdromDrive) (ty : Nat) (l : List Nat) :
    (push_response s ty l).m_reg_status.transmit_busy =
      s.m_reg_status.transmit_busy :=
  foldl_push_byte_proj (fun t => t.m_reg_status.transmit_busy)
    (by intro t b; unfold push_byte; split <;> rfl) l _

/-- The fold never shrinks the response FIFO below non-emptiness. -/
theorem foldl_push_byte_ne (l : List Nat) :
    ∀ t : CdromDrive, t.m_resp_fifo ≠ [] → (l.foldl push_byte t).m_resp_fifo ≠ [] := by
  induction l with
  | nil => intro t h; exact h
  | cons b bs ih =>
    intro t h
    rw [List.foldl_cons]
    apply ih
    unfold push_byte
    split
    · simp
    · exact h

/-- The fold keeps the response-FIFO-non-empty status bit set. -/
theorem foldl_push_byte_bit_true (l : List Nat) :
    ∀ t : CdromDrive, t.m_reg_status.response_fifo_not_empty = true →
      (l.foldl push_byte t).m_reg_status.response_fifo_not_empty = true := by
  induction l with
  | nil => intro t h; exact h
  | cons b bs ih =>
    intro t h
    rw [List.foldl_cons]
    apply ih
    unfold push_byte
    split <;> simpa

/-- The fold keeps the response FIFO within the 16-byte bound. -/
theorem foldl_push_byte_le (l : List Nat) :
    ∀ t : CdromDrive, t.m_resp_fifo.length ≤ 16 →
      (l.foldl push_byte t).m_resp_fifo.length ≤ 16 := by
  induction l with
  | nil => intro t h; exact h
  | cons b bs ih =>
    intro t h
    rw [List.foldl_cons]
    apply ih
    unfold push_byte
    split
    · rename_i hlt
      simp only [MAX_FIFO_SIZE] at hlt
      simp only [List.length_append, List.length_cons, List.length_nil]
      omega
    · exact h

/-- Upper bound on the growth of the response FIFO under the fold. -/
theorem foldl_push_byte_len_le (l : List Nat) :
    ∀ t : CdromDrive,
      (l.foldl push_byte t).m_resp_fifo.length ≤ t.m_resp_fifo.length + l.length := by
  induction l with
  | nil => intro t; simp
  | cons b bs ih =>
    intro t
    rw [List.foldl_cons]
    refine le_trans (ih _) ?_
    unfold push_byte
    split <;> simp <;> omega

/-- When there is room for every byte, `push_response` appends them all. -/
theorem foldl_push_byte_append (l : List Nat) :
    ∀ t : CdromDrive, t.m_resp_fifo.length + l.length ≤ 16 →
      (l.foldl push_byte t).m_resp_fifo = t.m_resp_fifo ++ l := by
  induction l with
  | nil => intro t _; simp
  | cons b bs ih =>
    intro t h
    rw [List.foldl_cons]
    have hlt : t.m_resp_fifo.length < 16 := by
      simp at h; omega
    have hpb : (push_byte t b).m_resp_fifo = t.m_resp_fifo ++ [b] := by
      unfold push_byte
      rw [if_pos (by simpa [MAX_FIFO_SIZE] using hlt)]
    rw [ih _ (by rw [hpb]; simp at h ⊢; omega), hpb]
    simp

theorem push_response_resp_append (s : CdromDrive) (ty : Nat) (l : List Nat)
    (h : s.m_resp_fifo.length + l.length ≤ 16) :
    (push_response s ty l).m_resp_fifo = s.m_resp_fifo ++ l :=
  foldl_push_byte_append l _ h

/-- A non-trivial push with room leaves the response FIFO non-empty and its
status bit set. -/
theorem push_response_nonempty (s : CdromDrive) (ty b : Nat) (bs : List Nat)
    (h : s.m_resp_fifo.length < 16) :
    (push_response s ty (b :: bs)).m_resp_fifo ≠ [] ∧
      (push_response s ty (b :: bs)).m_reg_status.response_fifo_not_empty = true := by
  unfold push_response
  rw [List.foldl_cons]
  have hpb : push_byte { s with m_irq_fifo := s.m_irq_fifo ++ [ty] } b =
      { s with m_irq_fifo := s.m_irq_fifo ++ [ty],
               m_resp_fifo := s.m_resp_fifo ++ [b],
               m_reg_status := { s.m_reg_status with response_fifo_not_empty := true } } := by
    unfold push_byte
    rw [if_pos (by simpa [MAX_FIFO_SIZE] using h)]
  rw [hpb]
  exact ⟨foldl_push_byte_ne bs _ (by simp), foldl_push_byte_bit_true bs _ rfl⟩

theorem push_response_resp_le (s : CdromDrive) (ty : Nat) (l : List Nat)
    (h : s.m_resp_fifo.length ≤ 16) :
    (push_response s ty l).m_resp_fifo.length ≤ 16 :=
  foldl_push_byte_le l _ h

theorem push_response_resp_len_le (s : CdromDrive) (ty : Nat) (l : List Nat) :
    (push_response s ty l).m_resp_fifo.length ≤ s.m_resp_fifo.length + l.length :=
  foldl_push_byte_len_le l _

end Pctation

namespace Pctation

open CdromDrive

/-! ## Facts about `get_param` and `read_byte` -/

theorem get_param_eq (s : CdromDrive) (p : Nat) (u : CdromDrive)
    (h : get_param s = some (p, u)) :
    u.m_resp_fifo = s.m_resp_fifo ∧
    u.m_reg_status.response_fifo_not_empty = s.m_reg_status.response_fifo_not_empty ∧
    u.m_stat_code = s.m_stat_code ∧
    u.m_disk = s.m_disk ∧
    u.m_param_fifo.length + 1 = s.m_param_fifo.length ∧
    u.m_reg_status.param_fifo_empty = u.m_param_fifo.isEmpty ∧
    u.m_reg_status.param_fifo_write_ready = true := by
  unfold get_param at h
  cases hp : s.m_param_fifo with
  | nil => rw [hp] at h; exact absurd h (by simp)
  | cons a rest =>
    rw [hp] at h
    simp only [Option.some.injEq, Prod.mk.injEq] at h
    obtain ⟨-, hu⟩ := h
    subst hu
    simp [hp]

theorem read_byte_state (s : CdromDrive) :
    (read_byte s).2.m_param_fifo = s.m_param_fifo ∧
    (read_byte s).2.m_resp_fifo = s.m_resp_fifo ∧
    (read_byte s).2.m_irq_fifo = s.m_irq_fifo ∧
    (read_byte s).2.m_data_buf = s.m_data_buf ∧
    (read_byte s).2.m_mode = s.m_mode ∧
    (read_byte s).2.m_reg_status.param_fifo_empty = s.m_reg_status.param_fifo_empty ∧
    (read_byte s).2.m_reg_status.param_fifo_write_ready =
      s.m_reg_status.param_fifo_write_ready ∧
    (read_byte s).2.m_reg_status.response_fifo_not_empty =
      s.m_reg_status.response_fifo_not_empty := by
  unfold read_byte
  split
  · exact ⟨rfl, rfl, rfl, rfl, rfl, rfl, rfl, rfl⟩
  · dsimp only
    split <;> exact ⟨rfl, rfl, rfl, rfl, rfl, rfl, rfl, rfl⟩

/-! ## Concrete states used by witnesses and counterexamples -/

/-- A concrete disc image whose every sector is returned as a `Data`
sector. -/
def wDataDisk : CdromDisk :=
  ⟨fun _ => ([7, 7, 7], .Data), false, 1, fun _ => ⟨0, 0, 0⟩, ⟨0, 2, 0⟩⟩

/-- Modelled from the spec: a fresh controller state (spec section 8,
"initial state: fresh controller, disc with one data track ..., mode=0,
shell closed"): all FIFOs empty with consistent status bits, delay
counter primed, over `wDataDisk`. -/
def wDrive : CdromDrive :=
  ⟨⟨0, false, true, true, false, false, false⟩,
   ⟨false, false, false, false, false, false, false, false⟩,
   ⟨0⟩, 0, [], [], [], 0, 0, READ_SECTOR_DELAY_STEPS, [], [], 0, false, wDataDisk⟩

/-- `wDrive` with a full (16-entry) parameter FIFO. -/
def wFullParam : CdromDrive :=
  { wDrive with
    m_param_fifo := List.replicate 16 0,
    m_reg_status := { wDrive.m_reg_status with
      param_fifo_empty := false, param_fifo_write_ready := false } }

/-! ## C1 -/

/-- C1: for every opcode and every starting state, `execute_command` is
insensitive to the initial contents of `irq_fifo` and `resp_fifo` (it
clears both before dispatching), and whenever it returns, the parameter
FIFO is empty and the status register has `transmit_busy = 1`,
`param_fifo_empty = 1`, `param_fifo_write_ready = 1` and
`adpcm_fifo_empty = 0`. -/
theorem c1_execute_command_epilogue (s s' : CdromDrive) (cmd : Nat) :
    execute_command s cmd
      = execute_command { s with m_irq_fifo := [], m_resp_fifo := [] } cmd ∧
    (execute_command s cmd = some s' →
      s'.m_param_fifo = [] ∧
      s'.m_reg_status.transmit_busy = true ∧
      s'.m_reg_status.param_fifo_empty = true ∧
      s'.m_reg_status.param_fifo_write_ready = true ∧
      s'.m_reg_status.adpcm_fifo_empty = false) := by
  constructor
  · rfl
  · intro h
    have h' : (dispatch { s with m_irq_fifo := [], m_resp_fifo := [] } cmd).map
        execute_epilogue = some s' := h
    cases hd : dispatch { s with m_irq_fifo := [], m_resp_fifo := [] } cmd with
    | none => rw [hd] at h'; exact absurd h' (by simp)
    | some t =>
      rw [hd] at h'
      simp only [Option.map_some', Option.some.injEq] at h'
      subst h'
      exact ⟨rfl, rfl, rfl, rfl, rfl⟩

/-- The post-state of Getstat on the fresh drive. -/
def wC1res : CdromDrive := (execute_command wDrive 0x01).getD wDrive

/-- C1 witness: evaluated on the fresh drive and opcode 0x01. -/
theorem c1_witness :
    wC1res.m_param_fifo = [] ∧
    wC1res.m_reg_status.transmit_busy = true ∧
    wC1res.m_reg_status.param_fifo_empty = true ∧
    wC1res.m_reg_status.param_fifo_write_ready = true ∧
    wC1res.m_reg_status.adpcm_fifo_empty = false :=
  (c1_execute_command_epilogue wDrive wC1res 0x01).2 rfl

/-! ## C2 -/

/-- The number of interrupt raises a `step` performs, in closed form. -/
theorem step_snd (s : CdromDrive) :
    (step s).2 =
      if s.m_irq_fifo ≠ [] ∧
          (s.m_irq_fifo.headD 0 &&& 0b111) &&& (s.m_reg_int_enable &&& 0b111) ≠ 0
      then 1 else 0 := by
  unfold step
  dsimp only
  split
  · split
    · split
      · rfl
      · split
        · rfl
        · split
          · rfl
          · rfl
    · rfl
  · rfl

/-- C2: each `step()` raises at most one CDROM interrupt; it raises exactly
when `irq_fifo` is non-empty and `(front & 7) & (int_enable & 7)` is
non-zero; with `int_enable` masked to zero it never raises. -/
theorem c2_step_raises (s : CdromDrive) :
    (step s).2 ≤ 1 ∧
    ((step s).2 = 1 ↔ s.m_irq_fifo ≠ [] ∧
      (s.m_irq_fifo.headD 0 &&& 0b111) &&& (s.m_reg_int_enable &&& 0b111) ≠ 0) ∧
    (s.m_reg_int_enable &&& 0b111 = 0 → (step s).2 = 0) := by
  rw [step_snd]
  refine ⟨?_, ?_, ?_⟩
  · split <;> omega
  · split
    · rename_i hc; simpa using hc
    · rename_i hc; simpa using hc
  · intro h0
    rw [if_neg]
    intro hc
    rw [h0, Nat.and_zero] at hc
    exact hc.2 rfl

/-- C2 witness: a pending INT3 with the interrupt enable mask cleared
raises nothing. -/
theorem c2_witness :
    (step { wDrive with m_irq_fifo := [FirstInt3] }).2 = 0 :=
  (c2_step_raises { wDrive with m_irq_fifo := [FirstInt3] }).2.2 rfl

/-! ## C10 -/

/-- C10: reading register slot 1 (the response FIFO) while `resp_fifo` is
empty returns 0 and leaves the whole controller state unchanged. -/
theorem c10_read_resp_empty (s : CdromDrive) (h : s.m_resp_fifo = []) :
    read_reg s 1 = (0, s) := by
  unfold read_reg
  rw [h]
  rfl

/-- C10 witness: evaluated on the fresh drive. -/
theorem c10_witness : read_reg wDrive 1 = (0, wDrive) :=
  c10_read_resp_empty wDrive rfl

end Pctation

namespace Pctation

open CdromDrive

/-! ## C7 -/

/-- C7 counterexample: on a drive whose parameter FIFO already holds 16
bytes, a write to slot 2 index 0 trips the `Ensures` contract (the call
does not return); the byte is not silently dropped with the state
unchanged. -/
theorem c7_cex : write_reg wFullParam 2 5 = none := rfl

/-- C7 (amended): a write to the parameter FIFO when it already holds 16
bytes violates the `Ensures(size < MAX_FIFO_SIZE)` contract and the write
fails fast; only response-FIFO overflow is logged and dropped. -/
theorem c7_param_overflow (s : CdromDrive) (v : Nat)
    (hidx : s.m_reg_status.index = 0) (hfull : 16 ≤ s.m_param_fifo.length) :
    write_reg s 2 v = none := by
  unfold write_reg
  dsimp only
  rw [hidx]
  norm_num [MAX_FIFO_SIZE]
  omega

/-- C7 witness: the amended statement evaluated on the full-FIFO drive. -/
theorem c7_witness : write_reg wFullParam 2 7 = none :=
  c7_param_overflow wFullParam 7 rfl (by decide)

/-! ## Evaluating the response FIFO of a dispatched command -/

@[simp] theorem execute_epilogue_irq (t : CdromDrive) :
    (execute_epilogue t).m_irq_fifo = t.m_irq_fifo := rfl

@[simp] theorem execute_epilogue_resp (t : CdromDrive) :
    (execute_epilogue t).m_resp_fifo = t.m_resp_fifo := rfl

/-- A command that pushes a single response group, evaluated on the cleared
FIFOs. -/
theorem execute_one_push (s : CdromDrive) (ty : Nat) (l : List Nat)
    (h : l.length ≤ 16) :
    (execute_epilogue (push_response
        { s with m_irq_fifo := [], m_resp_fifo := [] } ty l)).m_irq_fifo = [ty] ∧
    (execute_epilogue (push_response
        { s with m_irq_fifo := [], m_resp_fifo := [] } ty l)).m_resp_fifo = l := by
  refine ⟨by simp, ?_⟩
  rw [execute_epilogue_resp, push_response_resp_append _ _ _ (by simpa using h)]
  simp

/-- A command that pushes two response groups, evaluated on the cleared
FIFOs. -/
theorem execute_two_pushes (s : CdromDrive) (ty1 ty2 : Nat) (l1 l2 : List Nat)
    (h : l1.length + l2.length ≤ 16) :
    (execute_epilogue (push_response (push_response
        { s with m_irq_fifo := [], m_resp_fifo := [] } ty1 l1) ty2 l2)).m_irq_fifo
      = [ty1, ty2] ∧
    (execute_epilogue (push_response (push_response
        { s with m_irq_fifo := [], m_resp_fifo := [] } ty1 l1) ty2 l2)).m_resp_fifo
      = l1 ++ l2 := by
  have h1 : (push_response { s with m_irq_fifo := [], m_resp_fifo := [] }
      ty1 l1).m_resp_fifo = l1 := by
    rw [push_response_resp_append _ _ _ (by simp; omega)]
    simp
  refine ⟨by simp, ?_⟩
  rw [execute_epilogue_resp, push_response_resp_append _ _ _ (by rw [h1]; omega), h1]

/-! ## C4 -/

set_option maxHeartbeats 1000000 in
/-- C4: `GetID` (0x1A) enqueues exactly INT5(0x11,0x80) when the shell is
open; INT3(stat) then INT2(0x02,0x00,0x20,0x00,'S','C','E','A') when the
shell is closed and a disc is present; INT3(stat) then
INT5(0x08,0x40,0,0,0,0,0,0) when the shell is closed and the disc image is
empty. -/
theorem c4_getid (s : CdromDrive) :
    (s.m_stat_code.shell_open = true →
      ∃ t, execute_command s 0x1A = some t ∧
        t.m_irq_fifo = [5] ∧ t.m_resp_fifo = [0x11, 0x80]) ∧
    (s.m_stat_code.shell_open = false → s.m_disk.is_empty = false →
      ∃ t, execute_command s 0x1A = some t ∧
        t.m_irq_fifo = [3, 2] ∧
        t.m_resp_fifo =
          [s.m_stat_code.byte, 0x02, 0x00, 0x20, 0x00, 0x53, 0x43, 0x45, 0x41]) ∧
    (s.m_stat_code.shell_open = false → s.m_disk.is_empty = true →
      ∃ t, execute_command s 0x1A = some t ∧
        t.m_irq_fifo = [3, 5] ∧
        t.m_resp_fifo =
          [s.m_stat_code.byte, 0x08, 0x40, 0x00, 0x00, 0x00, 0x00, 0x00, 0x00]) := by
  refine ⟨?_, ?_, ?_⟩
  · intro hshell
    have hd : execute_command s 0x1A = some (execute_epilogue
        (push_response { s with m_irq_fifo := [], m_resp_fifo := [] }
          ErrorInt5 [0x11, 0x80])) := by
      unfold execute_command dispatch
      norm_num [hshell]
    exact ⟨_, hd, (execute_one_push s ErrorInt5 [0x11, 0x80] (by simp)).1,
      (execute_one_push s ErrorInt5 [0x11, 0x80] (by simp)).2⟩
  · intro hshell hdisk
    have hd : execute_command s 0x1A = some (execute_epilogue
        (push_response
          (push_response { s with m_irq_fifo := [], m_resp_fifo := [] }
            FirstInt3 [s.m_stat_code.byte])
          SecondInt2 [0x02, 0x00, 0x20, 0x00, 0x53, 0x43, 0x45, 0x41])) := by
      unfold execute_command dispatch
      norm_num [hshell, hdisk]
    exact ⟨_, hd,
      (execute_two_pushes s FirstInt3 SecondInt2 [s.m_stat_code.byte]
        [0x02, 0x00, 0x20, 0x00, 0x53, 0x43, 0x45, 0x41] (by simp)).1,
      (execute_two_pushes s FirstInt3 SecondInt2 [s.m_stat_code.byte]
        [0x02, 0x00, 0x20, 0x00, 0x53, 0x43, 0x45, 0x41] (by simp)).2⟩
  · intro hshell hdisk
    have hd : execute_command s 0x1A = some (execute_epilogue
        (push_response
          (push_response { s with m_irq_fifo := [], m_resp_fifo := [] }
            FirstInt3 [s.m_stat_code.byte])
          ErrorInt5 [0x08, 0x40, 0x00, 0x00, 0x00, 0x00, 0x00, 0x00])) := by
      unfold execute_command dispatch
      norm_num [hshell, hdisk]
    exact ⟨_, hd,
      (execute_two_pushes s FirstInt3 ErrorInt5 [s.m_stat_code.byte]
        [0x08, 0x40, 0x00, 0x00, 0x00, 0x00, 0x00, 0x00] (by simp)).1,
      (execute_two_pushes s FirstInt3 ErrorInt5 [s.m_stat_code.byte]
        [0x08, 0x40, 0x00, 0x00, 0x00, 0x00, 0x00, 0x00] (by simp)).2⟩

/-- C4 witness: GetID on the fresh drive (shell closed, disc present). -/
theorem c4_witness :
    ∃ t, execute_command wDrive 0x1A = some t ∧
      t.m_irq_fifo = [3, 2] ∧
      t.m_resp_fifo =
        [wDrive.m_stat_code.byte, 0x02, 0x00, 0x20, 0x00, 0x53, 0x43, 0x45, 0x41] :=
  (c4_getid wDrive).2.1 rfl rfl

end Pctation

namespace Pctation

open CdromDrive

/-! ## C9 -/

/-- The opcodes handled by the `switch` of `execute_command` (everything
else falls to the default command-error case). -/
def COMMAND_TABLE : List Nat :=
  [0x01, 0x02, 0x03, 0x06, 0x07, 0x08, 0x09, 0x0A, 0x0B, 0x0C, 0x0D, 0x0E,
   0x0F, 0x11, 0x13, 0x14, 0x15, 0x19, 0x1A, 0x1B]

set_option maxHeartbeats 1000000 in
/-- C9: `Test` (0x19) with subfunction 0x20 enqueues exactly
INT3(0x94,0x09,0x19,0xC0); `Test` with any other subfunction, and any
opcode outside the command table, enqueue exactly INT5(0x11,0x40). -/
theorem c9_test_and_default (s : CdromDrive) (cmd sub : Nat) (rest : List Nat) :
    (s.m_param_fifo = sub :: rest → sub = 0x20 →
      ∃ t, execute_command s 0x19 = some t ∧
        t.m_irq_fifo = [3] ∧ t.m_resp_fifo = [0x94, 0x09, 0x19, 0xC0]) ∧
    (s.m_param_fifo = sub :: rest → sub ≠ 0x20 →
      ∃ t, execute_command s 0x19 = some t ∧
        t.m_irq_fifo = [5] ∧ t.m_resp_fifo = [0x11, 0x40]) ∧
    (cmd ∉ COMMAND_TABLE →
      ∃ t, execute_command s cmd = some t ∧
        t.m_irq_fifo = [5] ∧ t.m_resp_fifo = [0x11, 0x40]) := by
  refine ⟨?_, ?_, ?_⟩
  · intro hp hsub
    have hd : execute_command s 0x19 = some (execute_epilogue
        (push_response { s with
            m_irq_fifo := [], m_resp_fifo := [], m_param_fifo := rest,
            m_reg_status := { s.m_reg_status with
              param_fifo_empty := rest.isEmpty,
              param_fifo_write_ready := true } }
          FirstInt3 [0x94, 0x09, 0x19, 0xC0])) := by
      unfold execute_command dispatch get_param
      norm_num [hp, hsub]
    exact ⟨_, hd, (execute_one_push _ FirstInt3 [0x94, 0x09, 0x19, 0xC0] (by simp)).1,
      (execute_one_push _ FirstInt3 [0x94, 0x09, 0x19, 0xC0] (by simp)).2⟩
  · intro hp hsub
    have hd : execute_command s 0x19 = some (execute_epilogue
        (push_response { s with
            m_irq_fifo := [], m_resp_fifo := [], m_param_fifo := rest,
            m_reg_status := { s.m_reg_status with
              param_fifo_empty := rest.isEmpty,
              param_fifo_write_ready := true } }
          ErrorInt5 [0x11, 0x40])) := by
      unfold execute_command dispatch get_param command_error
      norm_num [hp, hsub]
    exact ⟨_, hd, (execute_one_push _ ErrorInt5 [0x11, 0x40] (by simp)).1,
      (execute_one_push _ ErrorInt5 [0x11, 0x40] (by simp)).2⟩
  · intro hmem
    simp only [COMMAND_TABLE, List.mem_cons, List.not_mem_nil, or_false,
      not_or] at hmem
    obtain ⟨n01, n02, n03, n06, n07, n08, n09, n0A, n0B, n0C, n0D, n0E, n0F,
      n11, n13, n14, n15, n19, n1A, n1B⟩ := hmem
    have hd : execute_command s cmd = some (execute_epilogue
        (push_response { s with m_irq_fifo := [], m_resp_fifo := [] }
          ErrorInt5 [0x11, 0x40])) := by
      unfold execute_command dispatch command_error
      simp [n01, n02, n03, n06, n07, n08, n09, n0A, n0B, n0C, n0D, n0E, n0F,
        n11, n13, n14, n15, n19, n1A, n1B]
    exact ⟨_, hd, (execute_one_push s ErrorInt5 [0x11, 0x40] (by simp)).1,
      (execute_one_push s ErrorInt5 [0x11, 0x40] (by simp)).2⟩

/-- C9 witness: Test subfunction 0x20 on the fresh drive with the
subfunction byte queued. -/
theorem c9_witness :
    ∃ t, execute_command { wDrive with m_param_fifo := [0x20] } 0x19 = some t ∧
      t.m_irq_fifo = [3] ∧ t.m_resp_fifo = [0x94, 0x09, 0x19, 0xC0] :=
  (c9_test_and_default { wDrive with m_param_fifo := [0x20] } 0 0x20 []).1 rfl rfl

end Pctation

namespace Pctation

open CdromDrive

/-! ## C3 -/

/-- C3: in a Reading or Playing state, `step()` decrements the sector-delay
counter (as a `u32`); when the decrement reaches zero the counter is reset
to `READ_SECTOR_DELAY_STEPS`, the disc is read at LBA `read_sector` into
the staging buffer and `read_sector` advances by one; on an `Invalid`
sector nothing is enqueued though `read_sector` has still advanced; when
the stat is Reading and the sector is `Data`, exactly one INT1(stat)
response is pushed. -/
theorem c3_step_read_cycle (s : CdromDrive)
    (h : s.m_stat_code.reading = true ∨ s.m_stat_code.playing = true) :
    ((s.m_steps_until_read_sect + (U32 - 1)) % U32 ≠ 0 →
      (step s).1 = { s with
        m_reg_status := { s.m_reg_status with transmit_busy := false },
        m_steps_until_read_sect := (s.m_steps_until_read_sect + (U32 - 1)) % U32 }) ∧
    ((s.m_steps_until_read_sect + (U32 - 1)) % U32 = 0 →
      (step s).1.m_steps_until_read_sect = READ_SECTOR_DELAY_STEPS ∧
      (step s).1.m_read_buf = (s.m_disk.read (CdromPosition.from_lba s.m_read_sector)).1 ∧
      (step s).1.m_read_sector = (s.m_read_sector + 1) % U32 ∧
      ((s.m_disk.read (CdromPosition.from_lba s.m_read_sector)).2 = DataType.Invalid →
        (step s).1.m_irq_fifo = s.m_irq_fifo ∧ (step s).1.m_resp_fifo = s.m_resp_fifo) ∧
      (s.m_stat_code.reading = true →
        (s.m_disk.read (CdromPosition.from_lba s.m_read_sector)).2 = DataType.Data →
        (step s).1.m_irq_fifo = s.m_irq_fifo ++ [SecondInt1] ∧
        (step s).1.m_resp_fifo =
          (if s.m_resp_fifo.length < 16 then s.m_resp_fifo ++ [s.m_stat_code.byte]
           else s.m_resp_fifo))) := by
  have hb : (s.m_stat_code.reading || s.m_stat_code.playing) = true := by
    rcases h with h1 | h1 <;> simp [h1]
  constructor
  · intro hc
    unfold step
    dsimp only
    rw [hb]
    simp only [if_true]
    rw [if_neg hc]
  · intro hc
    unfold step
    dsimp only
    rw [hb]
    simp only [if_true]
    rw [if_pos hc]
    refine ⟨?_, ?_, ?_, ?_, ?_⟩
    · split
      · rfl
      · split
        · rfl
        · split
          · simp
          · rfl
    · split
      · rfl
      · split
        · rfl
        · split
          · simp
          · rfl
    · split
      · rfl
      · split
        · rfl
        · split
          · simp
          · rfl
    · intro hkind
      rw [if_pos hkind]
      exact ⟨rfl, rfl⟩
    · intro hread hkind
      rw [if_neg (by simp [hkind])]
      rw [if_neg (by simp [hkind])]
      rw [if_pos (by simp [hkind, hread])]
      constructor
      · simp
      · unfold push_response
        rw [List.foldl_cons, List.foldl_nil]
        unfold push_byte
        dsimp only
        split
        · rename_i hlt
          simp only [MAX_FIFO_SIZE] at hlt
          rw [if_pos hlt]
        · rename_i hlt
          simp only [MAX_FIFO_SIZE] at hlt
          rw [if_neg hlt]
  
/-- A fresh drive in the Reading state with the delay counter about to
expire. -/
def wReading : CdromDrive :=
  { wDrive with
    m_stat_code := { wDrive.m_stat_code with reading := true },
    m_steps_until_read_sect := 1 }

/-- C3 witness: one `step` on `wReading` performs the sector fetch and
enqueues the INT1 data-ready response. -/
theorem c3_witness :
    (step wReading).1.m_steps_until_read_sect = READ_SECTOR_DELAY_STEPS ∧
    (step wReading).1.m_irq_fifo = wReading.m_irq_fifo ++ [SecondInt1] := by
  have h := c3_step_read_cycle wReading (Or.inl rfl)
  have h2 := h.2 (by decide)
  exact ⟨h2.1, (h2.2.2.2.2 rfl rfl).1⟩

end Pctation

namespace Pctation

open CdromDrive

/-! ## C8 -/

theorem getD_lt_256 (l : List Nat) (i : Nat) (h : ∀ b ∈ l, b < 256) :
    l.getD i 0 < 256 := by
  induction l generalizing i with
  | nil => simp [List.getD]
  | cons a as ih =>
    cases i with
    | zero => simpa using h a (by simp)
    | succ n =>
      simp only [List.getD_cons_succ]
      exact ih n (fun b hb => h b (by simp [hb]))

theorem read_byte_val_lt (t : CdromDrive) (h : ∀ b ∈ t.m_data_buf, b < 256) :
    (read_byte t).1 < 256 := by
  unfold read_byte
  split
  · norm_num
  · dsimp only
    exact getD_lt_256 _ _ h

/-- Little-endian reassembly of four bytes. -/
theorem lor_four_bytes (b0 b1 b2 b3 : Nat) (h0 : b0 < 256) (h1 : b1 < 256)
    (h2 : b2 < 256) (h3 : b3 < 256) :
    (b0 <<< 0) ||| (b1 <<< 8) ||| (b2 <<< 16) ||| (b3 <<< 24) =
      b0 + 256 * b1 + 65536 * b2 + 16777216 * b3 := by
  have e1 : b1 <<< 8 = 2 ^ 8 * b1 := by rw [Nat.shiftLeft_eq]; ring
  have e2 : b2 <<< 16 = 2 ^ 16 * b2 := by rw [Nat.shiftLeft_eq]; ring
  have e3 : b3 <<< 24 = 2 ^ 24 * b3 := by rw [Nat.shiftLeft_eq]; ring
  have h0' : b0 < 2 ^ 8 := by norm_num; omega
  rw [Nat.shiftLeft_zero, e1, e2, e3]
  rw [Nat.lor_comm b0 _, ← Nat.mul_add_lt_is_or h0' b1]
  rw [Nat.lor_comm _ (2 ^ 16 * b2),
    ← Nat.mul_add_lt_is_or (show 2 ^ 8 * b1 + b0 < 2 ^ 16 by norm_num; omega) b2]
  rw [Nat.lor_comm _ (2 ^ 24 * b3),
    ← Nat.mul_add_lt_is_or
      (show 2 ^ 16 * b2 + (2 ^ 8 * b1 + b0) < 2 ^ 24 by norm_num; omega) b3]
  norm_num
  ring

/-- C8: `read_byte` on a non-drained buffer returns the byte at the
mode-dependent offset plus the cursor, advances the cursor, and clears
`data_fifo_not_empty` exactly when the buffer becomes drained; on a
drained buffer it returns 0 and leaves the state unchanged; `read_word`
assembles four successive bytes little-endian. -/
theorem c8_read_byte_word (s : CdromDrive) :
    (s.is_data_buf_empty = true → read_byte s = (0, s)) ∧
    (s.is_data_buf_empty = false →
      (read_byte s).1 = s.m_data_buf.getD
        ((if s.m_mode.sector_size = 0x800 then 24 else 12) + s.m_data_buffer_index) 0 ∧
      (read_byte s).2.m_data_buffer_index = s.m_data_buffer_index + 1 ∧
      ((read_byte s).2.is_data_buf_empty = true →
        (read_byte s).2.m_reg_status.data_fifo_not_empty = false) ∧
      ((read_byte s).2.is_data_buf_empty = false →
        (read_byte s).2.m_reg_status.data_fifo_not_empty =
          s.m_reg_status.data_fifo_not_empty)) ∧
    ((∀ b ∈ s.m_data_buf, b < 256) →
      (read_word s).1 =
        (read_byte s).1 +
        256 * (read_byte (read_byte s).2).1 +
        65536 * (read_byte (read_byte (read_byte s).2).2).1 +
        16777216 * (read_byte (read_byte (read_byte (read_byte s).2).2).2).1) := by
  refine ⟨?_, ?_, ?_⟩
  · intro he
    unfold read_byte
    rw [if_pos he]
  · intro hne
    unfold read_byte
    rw [if_neg (by simp [hne])]
    dsimp only
    refine ⟨rfl, ?_, ?_, ?_⟩
    · split <;> rfl
    · split
      · intro _; rfl
      · rename_i hd
        intro hd'
        exact absurd hd' (by simpa using hd)
    · split
      · rename_i hd
        intro hd'
        unfold is_data_buf_empty at hd hd'
        dsimp only at hd hd'
        exact absurd (hd.symm.trans hd') (by simp)
      · intro _; rfl
  · intro hb
    have hbuf1 : (read_byte s).2.m_data_buf = s.m_data_buf :=
      (read_byte_state s).2.2.2.1
    have hbuf2 : (read_byte (read_byte s).2).2.m_data_buf = s.m_data_buf := by
      rw [(read_byte_state _).2.2.2.1, hbuf1]
    have hbuf3 :
        (read_byte (read_byte (read_byte s).2).2).2.m_data_buf = s.m_data_buf := by
      rw [(read_byte_state _).2.2.2.1, hbuf2]
    have h0 := read_byte_val_lt s hb
    have h1 := read_byte_val_lt (read_byte s).2 (by rw [hbuf1]; exact hb)
    have h2 := read_byte_val_lt (read_byte (read_byte s).2).2
      (by rw [hbuf2]; exact hb)
    have h3 := read_byte_val_lt (read_byte (read_byte (read_byte s).2).2).2
      (by rw [hbuf3]; exact hb)
    have : (read_word s).1 =
        ((read_byte s).1 <<< 0) |||
        ((read_byte (read_byte s).2).1 <<< 8) |||
        ((read_byte (read_byte (read_byte s).2).2).1 <<< 16) |||
        ((read_byte (read_byte (read_byte (read_byte s).2).2).2).1 <<< 24) := rfl
    rw [this, lor_four_bytes _ _ _ _ h0 h1 h2 h3]

/-- A drive exposing a buffer of byte values in data-only mode. -/
def wDataBuf : CdromDrive :=
  { wDrive with
    m_data_buf := List.range 30,
    m_reg_status := { wDrive.m_reg_status with data_fifo_not_empty := true } }

/-- C8 witness: the first word read from `wDataBuf` is bytes 24..27
assembled little-endian. -/
theorem c8_witness :
    (read_word wDataBuf).1 = 24 + 256 * 25 + 65536 * 26 + 16777216 * 27 := by
  have h := (c8_read_byte_word wDataBuf).2.2 (by
    intro b hbm
    simp only [wDataBuf, List.mem_range] at hbm
    omega)
  rw [h]
  rfl

end Pctation

namespace Pctation

open CdromDrive

/-! ## Status-bit / bound invariants -/

/-- The parameter-FIFO bound and its two derived status bits. -/
def ParamInv (s : CdromDrive) : Prop :=
  s.m_param_fifo.length ≤ 16 ∧
  s.m_reg_status.param_fifo_empty = s.m_param_fifo.isEmpty ∧
  s.m_reg_status.param_fifo_write_ready = decide (s.m_param_fifo.length < 16)

/-- The response-FIFO bound and its derived status bit. -/
def RespInv (s : CdromDrive) : Prop :=
  s.m_resp_fifo.length ≤ 16 ∧
  s.m_reg_status.response_fifo_not_empty = !s.m_resp_fifo.isEmpty

/-- What holds of the response FIFO right after a dispatched command body. -/
def RespOk (s : CdromDrive) : Prop :=
  s.m_resp_fifo ≠ [] ∧
  s.m_reg_status.response_fifo_not_empty = true ∧
  s.m_resp_fifo.length ≤ 16

theorem push_response_respOk_nil (s : CdromDrive) (ty b : Nat) (bs : List Nat)
    (h0 : s.m_resp_fifo = []) (hl : bs.length + 1 ≤ 16) :
    RespOk (push_response s ty (b :: bs)) := by
  have hlt : s.m_resp_fifo.length < 16 := by rw [h0]; simp
  obtain ⟨hne, hbit⟩ := push_response_nonempty s ty b bs hlt
  exact ⟨hne, hbit, push_response_resp_le s ty _ (by rw [h0]; simp)⟩

theorem push_response_respOk (s : CdromDrive) (ty : Nat) (l : List Nat)
    (h : RespOk s) : RespOk (push_response s ty l) :=
  ⟨foldl_push_byte_ne l _ h.1, foldl_push_byte_bit_true l _ h.2.1,
   foldl_push_byte_le l _ h.2.2⟩

theorem get_param_respOk (s : CdromDrive) (p : Nat) (u : CdromDrive)
    (hg : get_param s = some (p, u)) (h : RespOk s) : RespOk u := by
  obtain ⟨e1, e2, -⟩ := get_param_eq s p u hg
  exact ⟨by rw [e1]; exact h.1, by rw [e2]; exact h.2.1, by rw [e1]; exact h.2.2⟩

theorem get_param_resp_nil (s : CdromDrive) (p : Nat) (u : CdromDrive)
    (hg : get_param s = some (p, u)) (h0 : s.m_resp_fifo = []) :
    u.m_resp_fifo = [] := by
  obtain ⟨e1, -⟩ := get_param_eq s p u hg
  rw [e1, h0]

/-- After any successfully dispatched command body run on a cleared
response FIFO, the response FIFO is non-empty, its status bit is set, and
it is within bound. -/
theorem dispatch_respOk (s : CdromDrive) (cmd : Nat) (t : CdromDrive)
    (h0 : s.m_resp_fifo = []) (h : dispatch s cmd = some t) : RespOk t := by
  unfold dispatch at h
  by_cases hc01 : cmd = 0x01
  · rw [if_pos hc01] at h
    injection h with h; subst h
    exact push_response_respOk_nil _ _ _ _ h0 (by simp)
  rw [if_neg hc01] at h
  by_cases hc02 : cmd = 0x02
  · rw [if_pos hc02] at h
    rcases hg1 : get_param s with _ | ⟨p1, u1⟩ <;> rw [hg1] at h
    · simp at h
    simp only [Option.bind_eq_bind, Option.some_bind] at h
    rcases hg2 : get_param u1 with _ | ⟨p2, u2⟩ <;> rw [hg2] at h
    · simp at h
    simp only [Option.bind_eq_bind, Option.some_bind] at h
    rcases hg3 : get_param u2 with _ | ⟨p3, u3⟩ <;> rw [hg3] at h
    · simp at h
    simp only [Option.bind_eq_bind, Option.some_bind, Option.pure_def, Option.some.injEq] at h
    subst h
    have h3 : u3.m_resp_fifo = [] :=
      get_param_resp_nil _ _ _ hg3
        (get_param_resp_nil _ _ _ hg2 (get_param_resp_nil _ _ _ hg1 h0))
    exact push_response_respOk_nil _ _ _ _ h3 (by simp)
  rw [if_neg hc02] at h
  by_cases hc0D : cmd = 0x0D
  · rw [if_pos hc0D] at h
    rcases hg1 : get_param s with _ | ⟨p1, u1⟩ <;> rw [hg1] at h
    · simp at h
    simp only [Option.bind_eq_bind, Option.some_bind] at h
    rcases hg2 : get_param u1 with _ | ⟨p2, u2⟩ <;> rw [hg2] at h
    · simp at h
    simp only [Option.bind_eq_bind, Option.some_bind, Option.pure_def, Option.some.injEq] at h
    subst h
    have h2 : u2.m_resp_fifo = [] :=
      get_param_resp_nil _ _ _ hg2 (get_param_resp_nil _ _ _ hg1 h0)
    exact push_response_respOk_nil _ _ _ _ h2 (by simp)
  rw [if_neg hc0D] at h
  by_cases hc11 : cmd = 0x11 ∨ cmd = 0x03
  · rw [if_pos hc11] at h
    split at h
    · injection h with h; subst h
      exact push_response_respOk_nil _ _ _ _ h0 (by simp)
    · exact absurd h (by simp)
  rw [if_neg hc11] at h
  by_cases hc06 : cmd = 0x06
  · rw [if_pos hc06] at h
    injection h with h; subst h
    exact push_response_respOk_nil _ _ _ _ h0 (by simp)
  rw [if_neg hc06] at h
  by_cases hc07 : cmd = 0x07
  · rw [if_pos hc07] at h
    injection h with h; subst h
    exact push_response_respOk _ _ _ (push_response_respOk_nil _ _ _ _ h0 (by simp))
  rw [if_neg hc07] at h
  by_cases hc08 : cmd = 0x08
  · rw [if_pos hc08] at h
    injection h with h; subst h
    exact push_response_respOk _ _ _ (push_response_respOk_nil _ _ _ _ h0 (by simp))
  rw [if_neg hc08] at h
  by_cases hc09 : cmd = 0x09
  · rw [if_pos hc09] at h
    injection h with h; subst h
    exact push_response_respOk _ _ _ (push_response_respOk_nil _ _ _ _ h0 (by simp))
  rw [if_neg hc09] at h
  by_cases hc0E : cmd = 0x0E
  · rw [if_pos hc0E] at h
    dsimp only at h
    rcases hg1 : get_param (push_response_stat s FirstInt3) with _ | ⟨p1, u1⟩ <;>
      rw [hg1] at h
    · simp at h
    simp only [Option.bind_eq_bind, Option.some_bind] at h
    split at h
    · simp only [Option.pure_def, Option.some.injEq] at h
      subst h
      exact get_param_respOk _ p1 u1 hg1
        (push_response_respOk_nil _ _ _ _ h0 (by simp))
    · exact absurd h (by simp)
  rw [if_neg hc0E] at h
  by_cases hc0B : cmd = 0x0B
  · rw [if_pos hc0B] at h
    injection h with h; subst h
    exact push_response_respOk_nil _ _ _ _ h0 (by simp)
  rw [if_neg hc0B] at h
  by_cases hc0C : cmd = 0x0C
  · rw [if_pos hc0C] at h
    injection h with h; subst h
    exact push_response_respOk_nil _ _ _ _ h0 (by simp)
  rw [if_neg hc0C] at h
  by_cases hc0F : cmd = 0x0F
  · rw [if_pos hc0F] at h
    injection h with h; subst h
    exact push_response_respOk_nil _ _ _ _ h0 (by simp)
  rw [if_neg hc0F] at h
  by_cases hc13 : cmd = 0x13
  · rw [if_pos hc13] at h
    injection h with h; subst h
    exact push_response_respOk_nil _ _ _ _ h0 (by simp)
  rw [if_neg hc13] at h
  by_cases hc14 : cmd = 0x14
  · rw [if_pos hc14] at h
    rcases hg1 : get_param s with _ | ⟨p1, u1⟩ <;> rw [hg1] at h
    · simp at h
    simp only [Option.bind_eq_bind, Option.some_bind, Option.pure_def, Option.some.injEq] at h
    subst h
    exact push_response_respOk_nil _ _ _ _ (get_param_resp_nil _ _ _ hg1 h0) (by simp)
  rw [if_neg hc14] at h
  by_cases hc15 : cmd = 0x15
  · rw [if_pos hc15] at h
    injection h with h; subst h
    exact push_response_respOk _ _ _ (push_response_respOk_nil _ _ _ _ h0 (by simp))
  rw [if_neg hc15] at h
  by_cases hc19 : cmd = 0x19
  · rw [if_pos hc19] at h
    rcases hg1 : get_param s with _ | ⟨p1, u1⟩ <;> rw [hg1] at h
    · simp at h
    simp only [Option.bind_eq_bind, Option.some_bind] at h
    split at h
    · simp only [Option.pure_def, Option.some.injEq] at h
      subst h
      exact push_response_respOk_nil _ _ _ _ (get_param_resp_nil _ _ _ hg1 h0) (by simp)
    · simp only [Option.pure_def, Option.some.injEq] at h
      subst h
      exact push_response_respOk_nil _ _ _ _ (get_param_resp_nil _ _ _ hg1 h0) (by simp)
  rw [if_neg hc19] at h
  by_cases hc1A : cmd = 0x1A
  · rw [if_pos hc1A] at h
    dsimp only at h
    split at h
    · injection h with h; subst h
      exact push_response_respOk_nil _ _ _ _ h0 (by simp)
    · split at h
      · injection h with h; subst h
        exact push_response_respOk _ _ _ (push_response_respOk_nil _ _ _ _ h0 (by simp))
      · injection h with h; subst h
        exact push_response_respOk _ _ _ (push_response_respOk_nil _ _ _ _ h0 (by simp))
  rw [if_neg hc1A] at h
  by_cases hc1B : cmd = 0x1B
  · rw [if_pos hc1B] at h
    injection h with h; subst h
    exact push_response_respOk_nil _ _ _ _ h0 (by simp)
  rw [if_neg hc1B] at h
  by_cases hc0A : cmd = 0x0A
  · rw [if_pos hc0A] at h
    injection h with h; subst h
    exact push_response_respOk _ _ _ (push_response_respOk_nil _ _ _ _ h0 (by simp))
  rw [if_neg hc0A] at h
  injection h with h; subst h
  exact push_response_respOk_nil _ _ _ _ h0 (by simp)

end Pctation

namespace Pctation

open CdromDrive

theorem push_byte_respInv (t : CdromDrive) (b : Nat) (h : RespInv t) :
    RespInv (push_byte t b) := by
  unfold push_byte
  split
  · rename_i hlt
    simp only [MAX_FIFO_SIZE] at hlt
    refine ⟨?_, ?_⟩
    · simp only [List.length_append, List.length_cons, List.length_nil]
      omega
    · simp
  · exact h

theorem foldl_push_byte_respInv (l : List Nat) :
    ∀ t : CdromDrive, RespInv t → RespInv (l.foldl push_byte t) := by
  induction l with
  | nil => intro t h; exact h
  | cons b bs ih =>
    intro t h
    rw [List.foldl_cons]
    exact ih _ (push_byte_respInv t b h)

theorem push_response_respInv (s : CdromDrive) (ty : Nat) (l : List Nat)
    (h : RespInv s) : RespInv (push_response s ty l) :=
  foldl_push_byte_respInv l _ h

theorem push_response_paramInv (s : CdromDrive) (ty : Nat) (l : List Nat)
    (h : ParamInv s) : ParamInv (push_response s ty l) := by
  refine ⟨?_, ?_, ?_⟩
  · rw [push_response_param]; exact h.1
  · rw [push_response_status_param_empty, push_response_param]; exact h.2.1
  · rw [push_response_status_param_ready, push_response_param]; exact h.2.2

/-- `execute_command` re-establishes the parameter- and response-FIFO
invariants whenever it returns. -/
theorem execute_command_inv (s : CdromDrive) (cmd : Nat) (t : CdromDrive)
    (h : execute_command s cmd = some t) : ParamInv t ∧ RespInv t := by
  have h' : (dispatch { s with m_irq_fifo := [], m_resp_fifo := [] } cmd).map
      execute_epilogue = some t := h
  cases hd : dispatch { s with m_irq_fifo := [], m_resp_fifo := [] } cmd with
  | none => rw [hd] at h'; exact absurd h' (by simp)
  | some d =>
    rw [hd] at h'
    simp only [Option.map_some', Option.some.injEq] at h'
    subst h'
    have hok := dispatch_respOk _ cmd d rfl hd
    refine ⟨⟨Nat.zero_le 16, rfl, rfl⟩, hok.2.2, ?_⟩
    rw [show (execute_epilogue d).m_reg_status.response_fifo_not_empty =
        d.m_reg_status.response_fifo_not_empty from rfl, hok.2.1,
      show (execute_epilogue d).m_resp_fifo = d.m_resp_fifo from rfl]
    cases hresp : d.m_resp_fifo with
    | nil => exact absurd hresp hok.1
    | cons a l => simp

/-- `read_reg` preserves the parameter- and response-FIFO invariants. -/
theorem read_reg_inv (s : CdromDrive) (r : Nat) (hp : ParamInv s) (hr : RespInv s) :
    ParamInv (read_reg s r).2 ∧ RespInv (read_reg s r).2 := by
  unfold read_reg
  dsimp only
  by_cases h0 : r = 0
  · rw [if_pos h0]; exact ⟨hp, hr⟩
  rw [if_neg h0]
  by_cases h1 : r = 1
  · rw [if_pos h1]
    rcases hresp : s.m_resp_fifo with _ | ⟨v, rest⟩ <;> dsimp only
    · exact ⟨hp, hr⟩
    · split
      · rename_i hrest
        subst hrest
        dsimp only
        exact ⟨hp, by simp, by simp⟩
      · rename_i hrest
        dsimp only
        refine ⟨hp, ?_, ?_⟩
        · have h' := hr.1
          rw [hresp] at h'
          simp only [List.length_cons] at h'
          show rest.length ≤ 16
          omega
        · have h' := hr.2
          rw [hresp] at h'
          simp only [List.isEmpty_cons, Bool.not_false] at h'
          show s.m_reg_status.response_fifo_not_empty = !rest.isEmpty
          rw [h']
          cases rest with
          | nil => exact absurd rfl hrest
          | cons a l => simp
  rw [if_neg h1]
  by_cases h2 : r = 2
  · rw [if_pos h2]
    obtain ⟨e1, e2, -, -, -, e6, e7, e8⟩ := read_byte_state s
    exact ⟨⟨by rw [e1]; exact hp.1, by rw [e6, e1]; exact hp.2.1,
        by rw [e7, e1]; exact hp.2.2⟩,
      by rw [e2]; exact hr.1, by rw [e8, e2]; exact hr.2⟩
  rw [if_neg h2]
  by_cases h3 : r = 3 ∧ (s.m_reg_status.index = 0 ∨ s.m_reg_status.index = 2)
  · rw [if_pos h3]; exact ⟨hp, hr⟩
  rw [if_neg h3]
  by_cases h4 : r = 3 ∧ (s.m_reg_status.index = 1 ∨ s.m_reg_status.index = 3)
  · rw [if_pos h4]
    split <;> exact ⟨hp, hr⟩
  rw [if_neg h4]
  exact ⟨hp, hr⟩

/-- `write_reg` preserves the parameter- and response-FIFO invariants. -/
theorem write_reg_inv (s : CdromDrive) (r v : Nat) (t : CdromDrive)
    (hp : ParamInv s) (hr : RespInv s) (hw : write_reg s r v = some t) :
    ParamInv t ∧ RespInv t := by
  unfold write_reg at hw
  dsimp only at hw
  by_cases hA0 : r = 0
  · rw [if_pos hA0] at hw
    injection hw with hw; subst hw; exact ⟨hp, hr⟩
  rw [if_neg hA0] at hw
  by_cases hA1 : r = 1 ∧ s.m_reg_status.index = 0
  · rw [if_pos hA1] at hw
    exact execute_command_inv _ _ _ hw
  rw [if_neg hA1] at hw
  by_cases hA2 : r = 1 ∧ (s.m_reg_status.index = 1 ∨ s.m_reg_status.index = 2 ∨
      s.m_reg_status.index = 3)
  · rw [if_pos hA2] at hw
    injection hw with hw; subst hw; exact ⟨hp, hr⟩
  rw [if_neg hA2] at hw
  by_cases hA3 : r = 2 ∧ s.m_reg_status.index = 0
  · rw [if_pos hA3] at hw
    split at hw
    · rename_i hlt
      simp only [MAX_FIFO_SIZE] at hlt
      injection hw with hw; subst hw
      refine ⟨⟨?_, by simp, by simp [MAX_FIFO_SIZE]⟩, hr.1, hr.2⟩
      simp only [List.length_append, List.length_cons, List.length_nil]
      omega
    · exact absurd hw (by simp)
  rw [if_neg hA3] at hw
  by_cases hA4 : r = 2 ∧ s.m_reg_status.index = 1
  · rw [if_pos hA4] at hw
    injection hw with hw; subst hw; exact ⟨hp, hr⟩
  rw [if_neg hA4] at hw
  by_cases hA5 : r = 2 ∧ (s.m_reg_status.index = 2 ∨ s.m_reg_status.index = 3)
  · rw [if_pos hA5] at hw
    injection hw with hw; subst hw; exact ⟨hp, hr⟩
  rw [if_neg hA5] at hw
  by_cases hA6 : r = 3 ∧ s.m_reg_status.index = 0
  · rw [if_pos hA6] at hw
    split at hw
    · split at hw
      · injection hw with hw; subst hw; exact ⟨hp, hr⟩
      · injection hw with hw; subst hw; exact ⟨hp, hr⟩
    · injection hw with hw; subst hw; exact ⟨hp, hr⟩
  rw [if_neg hA6] at hw
  by_cases hA7 : r = 3 ∧ s.m_reg_status.index = 1
  · rw [if_pos hA7] at hw
    by_cases hack : v &&& 0x40 ≠ 0
    · rw [if_pos hack] at hw
      split at hw
      · injection hw with hw; subst hw
        exact ⟨⟨by simp, by simp, by simp⟩, hr.1, hr.2⟩
      · injection hw with hw; subst hw
        exact ⟨⟨by simp, by simp, by simp⟩, hr.1, hr.2⟩
    · rw [if_neg hack] at hw
      split at hw
      · injection hw with hw; subst hw; exact ⟨hp, hr⟩
      · injection hw with hw; subst hw; exact ⟨hp, hr⟩
  rw [if_neg hA7] at hw
  by_cases hA8 : r = 3 ∧ (s.m_reg_status.index = 2 ∨ s.m_reg_status.index = 3)
  · rw [if_pos hA8] at hw
    injection hw with hw; subst hw; exact ⟨hp, hr⟩
  rw [if_neg hA8] at hw
  injection hw with hw; subst hw; exact ⟨hp, hr⟩

/-- `step` preserves the parameter- and response-FIFO invariants. -/
theorem step_inv (s : CdromDrive) (hp : ParamInv s) (hr : RespInv s) :
    ParamInv (step s).1 ∧ RespInv (step s).1 := by
  unfold step
  dsimp only
  repeat' split
  all_goals first
    | exact ⟨hp, hr⟩
    | exact ⟨push_response_paramInv _ _ _ hp, push_response_respInv _ _ _ hr⟩

end Pctation

namespace Pctation

open CdromDrive

/-! ## C6 -/

/-- C6 counterexample: on the fresh drive (whose status bits are all
consistent, data bit included), a "want data" request (slot 3 index 0,
bit 7 set) while the staging buffer `read_buf` is empty sets
`data_fifo_not_empty` even though the resulting data buffer is empty:
the bit no longer equals the predicate it names. -/
theorem c6_data_bit_cex :
    wDrive.m_reg_status.data_fifo_not_empty = false ∧
    is_data_buf_empty wDrive = true ∧
    ∃ t, write_reg wDrive 3 0x80 = some t ∧
      t.m_reg_status.data_fifo_not_empty = true ∧
      is_data_buf_empty t = true :=
  ⟨rfl, rfl, _, rfl, rfl, rfl⟩

/-- C6 (amended): after every entry-point return the parameter- and
response-FIFO status bits equal the predicates they name (given they did
on entry and the FIFOs were in bounds); the claim's clause for
`data_fifo_not_empty` does not hold in general (see the counterexample:
a want-data request with an empty staging buffer desynchronises it). -/
theorem c6_status_bits (s t : CdromDrive) (r v : Nat)
    (h : ParamInv s ∧ RespInv s) :
    (ParamInv (read_reg s r).2 ∧ RespInv (read_reg s r).2) ∧
    (write_reg s r v = some t → ParamInv t ∧ RespInv t) ∧
    (ParamInv (step s).1 ∧ RespInv (step s).1) :=
  ⟨read_reg_inv s r h.1 h.2, fun hw => write_reg_inv s r v t h.1 h.2 hw,
   step_inv s h.1 h.2⟩

/-- C6 witness: the amended statement evaluated on the fresh drive. -/
theorem c6_witness :
    ParamInv (read_reg wDrive 0).2 ∧ RespInv (read_reg wDrive 0).2 :=
  (c6_status_bits wDrive wDrive 0 0
    ⟨⟨by decide, rfl, rfl⟩, by decide, rfl⟩).1

/-! ## C5 -/

/-- States reachable from `s` by a sequence of `read_reg` / `write_reg` /
`step` calls (writes that trip a contract do not produce a next state). -/
inductive Reaches : CdromDrive → CdromDrive → Prop
  | refl (s : CdromDrive) : Reaches s s
  | read (s t : CdromDrive) (r : Nat) : Reaches s t → Reaches s (read_reg t r).2
  | write (s t u : CdromDrive) (r v : Nat) :
      Reaches s t → write_reg t r v = some u → Reaches s u
  | tick (s t : CdromDrive) : Reaches s t → Reaches s (step t).1

/-- C5 (amended): along every sequence of register operations and steps
from a state with consistent status bits and FIFOs in bounds (such as the
fresh controller), `param_fifo` and `resp_fifo` stay bounded at 16 —
`irq_fifo`, however, is not bounded (see the counterexample). -/
theorem c5_param_resp_bounded (s0 t : CdromDrive)
    (hp : ParamInv s0) (hr : RespInv s0) (h : Reaches s0 t) :
    t.m_param_fifo.length ≤ 16 ∧ t.m_resp_fifo.length ≤ 16 := by
  have hinv : ParamInv t ∧ RespInv t := by
    induction h with
    | refl => exact ⟨hp, hr⟩
    | read t r hst ih => exact read_reg_inv t r ih.1 ih.2
    | write t u r v hst hw ih => exact write_reg_inv t r v u ih.1 ih.2 hw
    | tick t hst ih => exact step_inv t ih.1 ih.2
  exact ⟨hinv.1.1, hinv.2.1⟩

/-- C5 witness: the amended statement evaluated on the fresh drive. -/
theorem c5_witness :
    wDrive.m_param_fifo.length ≤ 16 ∧ wDrive.m_resp_fifo.length ≤ 16 :=
  c5_param_resp_bounded wDrive wDrive ⟨by decide, rfl, rfl⟩ ⟨by decide, rfl⟩
    (Reaches.refl wDrive)

/-- The state transformer of one `step()` call. -/
def stepState (u : CdromDrive) : CdromDrive := (step u).1

theorem reaches_stepState (s t : CdromDrive) (h : Reaches s t) (n : Nat) :
    Reaches s (stepState^[n] t) := by
  induction n with
  | zero => exact h
  | succ n ih =>
    rw [Function.iterate_succ_apply']
    exact Reaches.tick _ _ ih

theorem stepState_dec (u : CdromDrive) (h : u.m_stat_code.reading = true) (n : Nat)
    (hc : u.m_steps_until_read_sect = n + 2) (hn : n + 2 < U32) :
    stepState u = { u with
      m_reg_status := { u.m_reg_status with transmit_busy := false },
      m_steps_until_read_sect := n + 1 } := by
  unfold stepState step
  dsimp only
  rw [h]
  simp only [Bool.true_or, if_true]
  rw [hc]
  have he : (n + 2 + (U32 - 1)) % U32 = n + 1 := by
    simp only [U32] at hn ⊢
    omega
  rw [he, if_neg (Nat.succ_ne_zero n)]

theorem stepState_iter_dec (n : Nat) :
    ∀ u : CdromDrive, u.m_stat_code.reading = true →
      u.m_steps_until_read_sect = n + 2 → n + 2 < U32 →
      stepState^[n + 1] u = { u with
        m_reg_status := { u.m_reg_status with transmit_busy := false },
        m_steps_until_read_sect := 1 } := by
  induction n with
  | zero =>
    intro u h hc hn
    rw [Function.iterate_one]
    exact stepState_dec u h 0 hc hn
  | succ n ih =>
    intro u h hc hn
    have h1 := stepState_dec u h (n + 1) hc hn
    have h2 := ih { u with
        m_reg_status := { u.m_reg_status with transmit_busy := false },
        m_steps_until_read_sect := n + 1 + 1 } h rfl
      (by simp only [U32] at hn ⊢; omega)
    calc stepState^[n + 1 + 1] u = stepState^[n + 1] (stepState u) :=
          Function.iterate_succ_apply _ _ _
      _ = stepState^[n + 1] { u with
            m_reg_status := { u.m_reg_status with transmit_busy := false },
            m_steps_until_read_sect := n + 1 + 1 } := by rw [h1]
      _ = { u with
            m_reg_status := { u.m_reg_status with transmit_busy := false },
            m_steps_until_read_sect := 1 } := by rw [h2]

theorem stepState_event (u : CdromDrive) (h : u.m_stat_code.reading = true)
    (hc : u.m_steps_until_read_sect = 1)
    (hk : (u.m_disk.read (CdromPosition.from_lba u.m_read_sector)).2 =
      DataType.Data) :
    (stepState u).m_irq_fifo = u.m_irq_fifo ++ [SecondInt1] ∧
    (stepState u).m_stat_code = u.m_stat_code ∧
    (stepState u).m_steps_until_read_sect = READ_SECTOR_DELAY_STEPS ∧
    (stepState u).m_disk = u.m_disk := by
  unfold stepState step
  dsimp only
  rw [h]
  simp only [Bool.true_or, if_true]
  rw [hc]
  have he : (1 + (U32 - 1)) % U32 = 0 := by simp [U32]
  rw [he, if_pos rfl]
  rw [if_neg (by simp [hk]), if_neg (by simp [hk]), if_pos (by simp [h, hk])]
  refine ⟨?_, ?_, ?_, ?_⟩
  · rw [push_response_irq]
  · rw [push_response_stat_code]
  · rw [push_response_steps]
  · rw [push_response_disk]

theorem stepState_cycle (u : CdromDrive) (h : u.m_stat_code.reading = true)
    (hc : u.m_steps_until_read_sect = READ_SECTOR_DELAY_STEPS)
    (hk : ∀ p, (u.m_disk.read p).2 = DataType.Data) :
    (stepState^[READ_SECTOR_DELAY_STEPS] u).m_irq_fifo = u.m_irq_fifo ++ [SecondInt1] ∧
    (stepState^[READ_SECTOR_DELAY_STEPS] u).m_stat_code = u.m_stat_code ∧
    (stepState^[READ_SECTOR_DELAY_STEPS] u).m_steps_until_read_sect =
      READ_SECTOR_DELAY_STEPS ∧
    (stepState^[READ_SECTOR_DELAY_STEPS] u).m_disk = u.m_disk := by
  have hsplit : stepState^[READ_SECTOR_DELAY_STEPS] u =
      stepState (stepState^[1148 + 1] u) := by
    show stepState^[1149 + 1] u = _
    rw [Function.iterate_succ_apply']
  have hiter := stepState_iter_dec 1148 u h (by rw [hc]; rfl) (by simp [U32])
  rw [hsplit, hiter]
  have hev := stepState_event
    { u with
      m_reg_status := { u.m_reg_status with transmit_busy := false },
      m_steps_until_read_sect := 1 } h rfl (hk _)
  exact hev

theorem stepState_cycles (k : Nat) :
    ∀ u : CdromDrive, u.m_stat_code.reading = true →
      u.m_steps_until_read_sect = READ_SECTOR_DELAY_STEPS →
      (∀ p, (u.m_disk.read p).2 = DataType.Data) →
      (stepState^[k * READ_SECTOR_DELAY_STEPS] u).m_irq_fifo.length =
        u.m_irq_fifo.length + k ∧
      (stepState^[k * READ_SECTOR_DELAY_STEPS] u).m_stat_code = u.m_stat_code ∧
      (stepState^[k * READ_SECTOR_DELAY_STEPS] u).m_steps_until_read_sect =
        READ_SECTOR_DELAY_STEPS ∧
      (stepState^[k * READ_SECTOR_DELAY_STEPS] u).m_disk = u.m_disk := by
  induction k with
  | zero =>
    intro u h hc hk
    exact ⟨by simp, rfl, hc, rfl⟩
  | succ k ih =>
    intro u h hc hk
    have hadd : (k + 1) * READ_SECTOR_DELAY_STEPS =
        READ_SECTOR_DELAY_STEPS + k * READ_SECTOR_DELAY_STEPS := by ring
    rw [hadd, Function.iterate_add_apply]
    obtain ⟨e1, e2, e3, e4⟩ := ih u h hc hk
    have hcyc := stepState_cycle (stepState^[k * READ_SECTOR_DELAY_STEPS] u)
      (by rw [e2]; exact h) e3 (by rw [e4]; exact hk)
    refine ⟨?_, ?_, ?_, ?_⟩
    · rw [hcyc.1, List.length_append, e1]
      simp only [List.length_cons, List.length_nil]
      omega
    · rw [hcyc.2.1, e2]
    · exact hcyc.2.2.1
    · rw [hcyc.2.2.2, e4]

/-- The fresh drive right after a ReadN (0x06) command write. -/
def afterReadN : CdromDrive := (write_reg wDrive 1 0x06).getD wDrive

/-- C5 counterexample: from the fresh controller, issue ReadN and then let
`step()` deliver 17 sectors without ever acknowledging an interrupt: the
interrupt FIFO grows past 16 entries, so not every FIFO stays bounded
at 16. -/
theorem c5_irq_fifo_unbounded_cex :
    ∃ t, Reaches wDrive t ∧ 16 < t.m_irq_fifo.length := by
  refine ⟨stepState^[17 * READ_SECTOR_DELAY_STEPS] afterReadN, ?_, ?_⟩
  · have h1 : Reaches wDrive afterReadN :=
      Reaches.write wDrive wDrive afterReadN 1 0x06 (Reaches.refl _) rfl
    exact reaches_stepState _ _ h1 _
  · have hc := stepState_cycles 17 afterReadN rfl rfl (fun p => rfl)
    rw [hc.1]
    have : afterReadN.m_irq_fifo.length = 1 := rfl
    rw [this]
    omega

end Pctation
